import Mathlib

/-!
Verification model of the `ipeds` fetch–decode–convert pipeline
(`src/ipeds/src/main.rs`).

The model is a shallow embedding: the entry-routing loop of
`get_mdb_convert`, the converter `convert_mdb`, the preflight
`check_tools`, and the dispatch in `main` are translated into pure Lean
functions.  External effects are made explicit:

* the output filesystem is a finite map from paths to file contents;
  output paths are represented as their component lists relative to the
  output root (`PathBuf::join` appends one component at a time, and the
  components produced by the program — an extension, a zip-entry base
  name, the literal "schema" — never contain a separator, so component
  lists are a faithful key);
* the store is a recorder: every `batch_execute` submission is logged
  in order, and a `storeOk` oracle decides which submissions the store
  accepts (each `batch_execute` call commits independently);
* the three external mdb tools are an environment supplying each tool's
  exit code and stdout, exactly the data `Command::output()` returns.

Errors carry the state reached so far, because in the real program file
writes and committed store statements persist past an `anyhow` error.
-/

/-! ### Character-level string helpers

Structural recursion over `List Char` keeps every definition
kernel-evaluable on concrete inputs. -/

def splitOnChar (c : Char) : List Char → List (List Char)
  | [] => [[]]
  | x :: xs =>
    if x = c then [] :: splitOnChar c xs
    else
      match splitOnChar c xs with
      | [] => [[x]]
      | p :: ps => (x :: p) :: ps

def splitString (c : Char) (s : String) : List String :=
  (splitOnChar c s.data).map String.mk

/-! ### Rust path semantics (`std::path`)

`Path::file_name` is the last non-empty component, unless it is `.` or
`..`; `Path::extension` is the part of the file name after its last
`.`, where a leading `.` (hidden file) does not start an extension;
`Path::file_stem` is the file name with that suffix removed. -/

def fileNameOf (raw : String) : Option String :=
  match ((splitString '/' raw).filter (fun c => c != "")).getLast? with
  | none => none
  | some c => if c = "." ∨ c = ".." then none else some c

def extensionOf (fname : String) : Option String :=
  let core := match fname.data with
    | '.' :: rest => rest
    | l => l
  let parts := splitOnChar '.' core
  if parts.length ≤ 1 then none else (parts.getLast?).map String.mk

def pathExtension (raw : String) : Option String :=
  (fileNameOf raw).bind extensionOf

def stemOf (fname : String) : String :=
  match extensionOf fname with
  | none => fname
  | some e => String.mk (fname.data.take (fname.data.length - (e.data.length + 1)))

/-- Output paths as component lists relative to the output root. -/
abbrev FPath := List String

/-- Renders a component path below a root, as `PathBuf` display would
(`root/c1/…/cn`). -/
def joinComponents (root : String) (p : FPath) : String :=
  p.foldl (fun acc c => acc ++ "/" ++ c) root

/-! ### Output filesystem

Keys are path-component lists relative to the output root.  `write` has
the truncate-and-rewrite semantics of
`OpenOptions::new().write(true).create(true).truncate(true)`. -/

abbrev Fs := List (FPath × String)

def Fs.write (fs : Fs) (p : FPath) (v : String) : Fs :=
  (p, v) :: fs.filter (fun q => q.1 != p)

def Fs.lookup (fs : Fs) (p : FPath) : Option String :=
  (fs.find? (fun q => q.1 == p)).map (fun q => q.2)

/-! ### Entry routing (the decode loop of `get_mdb_convert`) -/

structure Entry where
  rawName : String
  bytes   : String
deriving DecidableEq

/-- The output location `<out-root>/<extension>/<basename>` that the
decode loop computes for an entry, or `none` when the entry has no
extension and is skipped.  In the source, `raw_path.extension()` is
`file_name().and_then(extension)`, so the `file_name` lookup after a
successful `extension()` can never fail; we match on the file name
first to reflect that. -/
def entryOutPath (e : Entry) : Option (String × String) :=
  (fileNameOf e.rawName).bind (fun fn => (extensionOf fn).map (fun ext => (ext, fn)))

inductive RouteErr
  | multipleMdb
deriving DecidableEq

structure RouteState where
  fs            : Fs
  convertHandle : Option FPath
deriving DecidableEq

/-- One iteration of the decode loop: write the entry (if it has an
extension) to `[ext, filename]`, then, when the written file path has
extension `accdb`, either spawn the conversion (first time) or bail
with the multiple-MDB-files error.  `filepath.extension()` in the
source equals the extension of `filename`, because `join` makes
`filename` the last component of `filepath`. -/
def routeEntry (st : RouteState) (e : Entry) :
    Except (RouteErr × RouteState) RouteState :=
  match entryOutPath e with
  | none => .ok st
  | some (ext, fn) =>
    let filepath : FPath := [ext, fn]
    let st' : RouteState := ⟨Fs.write st.fs filepath e.bytes, st.convertHandle⟩
    if ext = "accdb" then
      match st'.convertHandle with
      | none => .ok ⟨st'.fs, some filepath⟩
      | some _ => .error (.multipleMdb, st')
    else
      .ok st'

def routeEntries (st : RouteState) : List Entry → Except (RouteErr × RouteState) RouteState
  | [] => .ok st
  | e :: es =>
    match routeEntry st e with
    | .error err => .error err
    | .ok st' => routeEntries st' es

/-- Whether the decode loop treats an entry as the recognized embedded
database file. -/
def isAccdb (e : Entry) : Bool :=
  pathExtension e.rawName == some "accdb"

/-- The staging path the loop hands to `convert_mdb` for a database
entry. -/
def dbPath (e : Entry) : FPath :=
  ["accdb", (fileNameOf e.rawName).getD ""]

def entryFileName (e : Entry) : String :=
  (fileNameOf e.rawName).getD ""

/-! ### The converter (`convert_mdb`)

The three external executables are an environment: for each invocation
the model is given the exit code and stdout that `Command::output()`
would return.  The store is modeled by recording every `batch_execute`
submission in order; the oracle `storeOk` says which submissions the
store accepts, and each accepted submission is committed independently
(the source acquires a fresh pooled connection per call and never wraps
the calls in a store-side transaction). -/

structure ToolResult where
  exitCode : Nat
  stdout   : String
deriving DecidableEq

structure MdbTools where
  /-- `mdb-schema --no-relations [--drop-table] <mdb> postgres`; the
  argument is the `drop_existing` flag. -/
  schemaTool : Bool → ToolResult
  /-- `mdb-tables -1 <mdb>`. -/
  tablesTool : ToolResult
  /-- The resolved path of `mdb-export` (the lazily initialized
  `MDB_EXPORT` constant). -/
  mdbExportPath : String

/-- Strips one trailing carriage return, as `str::lines` does for a
line that ends in `\r\n`. -/
def stripTrailingCR (l : List Char) : List Char :=
  if l.getLast? = some '\r' then l.dropLast else l

/-- Rust `str::lines`: split at `\n`, strip a `\r` left at the end of a
piece that was followed by `\n`, and drop the final piece when it is
empty (a trailing line terminator yields no extra line). -/
def rustLines (s : String) : List String :=
  let ps := splitOnChar '\n' s.data
  let front := ps.dropLast.map stripTrailingCR
  let last := ps.getLastD []
  (if last = [] then front else front ++ [last]).map String.mk

/-- The per-table statement
`COPY <table> FROM PROGRAM '<mdb-export> -H <mdb> <table>' (FORMAT csv);`
built by the spawned export task. -/
def exportSql (mdbExport mdbIn table : String) : String :=
  "COPY " ++ table ++ " FROM PROGRAM '" ++ mdbExport ++ " -H " ++ mdbIn
    ++ " " ++ table ++ "' (FORMAT csv);"

inductive ConvErr
  | noFileStem
  | storeError (sql : String)
deriving DecidableEq

structure ConvOut where
  fs        : Fs
  /-- Every statement handed to `Client::batch_execute`, in submission
  order.  The schema block is awaited before the table enumeration, so
  it precedes every `COPY`; the `COPY` tasks are spawned in enumeration
  order and joined in that order. -/
  submitted : List String
deriving DecidableEq

/-- `convert_mdb`: run `mdb-schema` (exit status never inspected),
write the schema artifact to `schema/<stem>.sql`, submit the schema
block, enumerate tables with `mdb-tables -1` (exit status never
inspected), spawn one `COPY … FROM PROGRAM` per output line, and join
the export tasks in order, surfacing the first store failure.  All
spawned `COPY` statements reach the store even when one of them fails,
because every task was spawned before the first join.
`schema_dir.join(&mdbname).with_extension("sql")` replaces any
extension left inside the stem, hence the inner `stemOf`. -/
def convert_mdb (tools : MdbTools) (storeOk : String → Bool) (outRoot : String)
    (mdbIn : FPath) (dropExisting : Bool) (fs : Fs) :
    Except (ConvErr × ConvOut) ConvOut :=
  match mdbIn.getLast? with
  | none => .error (.noFileStem, ⟨fs, []⟩)
  | some fn =>
    let mdbname := stemOf fn
    let schemaSql := (tools.schemaTool dropExisting).stdout
    let schemaPath : FPath := ["schema", stemOf mdbname ++ ".sql"]
    let fs := Fs.write fs schemaPath schemaSql
    if storeOk schemaSql then
      let tables := rustLines tools.tablesTool.stdout
      let copies := tables.map (fun t =>
        exportSql tools.mdbExportPath (joinComponents outRoot mdbIn) t)
      let submitted := schemaSql :: copies
      match copies.find? (fun sql => !storeOk sql) with
      | some sql => .error (.storeError sql, ⟨fs, submitted⟩)
      | none => .ok ⟨fs, submitted⟩
    else
      .error (.storeError schemaSql, ⟨fs, [schemaSql]⟩)

/-- The statements the store actually committed out of a run: each
`batch_execute` call is its own implicitly committed unit. -/
def committed (storeOk : String → Bool) (out : ConvOut) : List String :=
  out.submitted.filter storeOk

/-! ### Preflight tool check and the dispatch in `main` -/

def REQUIRED_TOOLS : List String := ["mdb-tables", "mdb-export", "mdb-schema"]

/-- `check_tools`: iterate over the tool names and bail on the first
one `which` cannot resolve. -/
def check_tools (resolvable : String → Bool) (tools : List String) :
    Except String Unit :=
  match tools.find? (fun t => !resolvable t) with
  | some t => .error t
  | none => .ok ()

inductive MainEvent
  | toolsCheck
  | fetchCatalog
  | runArchive (href : String)
deriving DecidableEq

/-- Whether an event involves network activity (the catalog page GET,
or an archive task, which starts with its archive GET). -/
def isNetworkEvent : MainEvent → Bool
  | .toolsCheck => false
  | .fetchCatalog => true
  | .runArchive _ => true

inductive MainOutcome
  | ok
  | toolNotFound (t : String)
  /-- The `else` branch taken when the output directory already
  exists; it stops in `unimplemented!` before doing anything. -/
  | outDirExists
  | archiveError
deriving DecidableEq

/-- The control flow of `main` relevant to startup ordering: when the
output root does not yet exist, `check_tools` runs first, then the
catalog page is fetched and one task per matched link is dispatched;
when a required tool is missing, `main` returns the error before any
network request.  Archive outcomes are abstracted by `archiveOk`. -/
def mainRun (outExists : Bool) (resolvable : String → Bool)
    (links : List String) (archiveOk : String → Bool) :
    List MainEvent × MainOutcome :=
  if outExists then
    ([], .outDirExists)
  else
    match check_tools resolvable REQUIRED_TOOLS with
    | .error t => ([.toolsCheck], .toolNotFound t)
    | .ok _ =>
      (MainEvent.toolsCheck :: MainEvent.fetchCatalog :: links.map .runArchive,
       if links.all archiveOk then .ok else .archiveError)

/-! ### The archive scheduler

`main` builds a lazy iterator whose `next` spawns one archive task and
feeds it to `buffer_unordered(concurrency)`.  `buffer_unordered(P)`
pulls from the underlying stream only while it holds fewer than `P`
unfinished futures, and pulling is what spawns the task, so the
in-flight archive tasks are exactly the futures it holds.  The step
relation below is this contract: `pull` admits a new task only under
the capacity bound, `finish` retires a running task. -/

structure SchedState (α : Type) where
  pending  : List α
  running  : List α
  finished : List α

inductive SchedStep {α : Type} [DecidableEq α] (P : Nat) :
    SchedState α → SchedState α → Prop
  | pull (t : α) (rest : List α) (s : SchedState α)
      (hcap : s.running.length < P) (hp : s.pending = t :: rest) :
      SchedStep P s ⟨rest, t :: s.running, s.finished⟩
  | finish (t : α) (s : SchedState α) (ht : t ∈ s.running) :
      SchedStep P s ⟨s.pending, s.running.erase t, t :: s.finished⟩

inductive SchedReach {α : Type} [DecidableEq α] (P : Nat)
    (init : SchedState α) : SchedState α → Prop
  | refl : SchedReach P init init
  | step {s s' : SchedState α} :
      SchedReach P init s → SchedStep P s s' → SchedReach P init s'

/-! ### Toolkit lemmas about routing and the filesystem -/

/-- The write a single entry performs, if any. -/
def entryWrite (e : Entry) : Option (FPath × String) :=
  (entryOutPath e).map (fun q => ([q.1, q.2], e.bytes))

def writesOf (es : List Entry) : List (FPath × String) :=
  es.filterMap entryWrite

def applyWrites (fs : Fs) (ws : List (FPath × String)) : Fs :=
  ws.foldl (fun acc w => Fs.write acc w.1 w.2) fs

/-- The value left at `p` by a write list, later writes winning. -/
def lastWrite (ws : List (FPath × String)) (p : FPath) : Option String :=
  match ws with
  | [] => none
  | w :: ws =>
    match lastWrite ws p with
    | some v => some v
    | none => if w.1 = p then some w.2 else none

/-- Sanity checks of the `str::lines` model: one name per line, an
optional final terminator, carriage-return handling, and the empty
output. -/
theorem rustLines_sanity :
    rustLines "students\ncourses\n" = ["students", "courses"]
      ∧ rustLines "a\r\nb" = ["a", "b"]
      ∧ rustLines "" = [] :=
  ⟨rfl, rfl, rfl⟩

theorem entryOutPath_elim {e : Entry} {ext fn : String}
    (hp : entryOutPath e = some (ext, fn)) :
    fileNameOf e.rawName = some fn ∧ extensionOf fn = some ext := by
  unfold entryOutPath at hp
  rw [Option.bind_eq_some] at hp
  obtain ⟨fn', h1, h2⟩ := hp
  rw [Option.map_eq_some'] at h2
  obtain ⟨a, ha, hpair⟩ := h2
  have hfn : fn' = fn := congrArg Prod.snd hpair
  have hext : a = ext := congrArg Prod.fst hpair
  subst hfn; subst hext
  exact ⟨h1, ha⟩

theorem isAccdb_iff_entryOutPath (e : Entry) :
    isAccdb e = true ↔ ∃ fn, entryOutPath e = some ("accdb", fn) := by
  constructor
  · intro h
    unfold isAccdb pathExtension at h
    rw [beq_iff_eq, Option.bind_eq_some] at h
    obtain ⟨fn, h1, h2⟩ := h
    exact ⟨fn, by unfold entryOutPath; rw [h1]; simp [h2]⟩
  · intro ⟨fn, hp⟩
    obtain ⟨h1, h2⟩ := entryOutPath_elim hp
    unfold isAccdb pathExtension
    rw [beq_iff_eq, Option.bind_eq_some]
    exact ⟨fn, h1, h2⟩

theorem ext_ne_accdb_of_not_isAccdb {e : Entry} {ext fn : String}
    (h : isAccdb e = false) (hp : entryOutPath e = some (ext, fn)) :
    ext ≠ "accdb" := by
  intro hext
  have : isAccdb e = true :=
    (isAccdb_iff_entryOutPath e).mpr ⟨fn, by rw [hp, hext]⟩
  simp [this] at h

theorem fileNameOf_of_entryOutPath {e : Entry} {ext fn : String}
    (hp : entryOutPath e = some (ext, fn)) :
    fileNameOf e.rawName = some fn :=
  (entryOutPath_elim hp).1

theorem routeEntry_skip {e : Entry} (st : RouteState)
    (hp : entryOutPath e = none) : routeEntry st e = .ok st := by
  simp [routeEntry, hp]

theorem routeEntry_plain {e : Entry} {ext fn : String} (st : RouteState)
    (hp : entryOutPath e = some (ext, fn)) (hext : ext ≠ "accdb") :
    routeEntry st e = .ok ⟨Fs.write st.fs [ext, fn] e.bytes, st.convertHandle⟩ := by
  simp [routeEntry, hp, hext]

theorem routeEntry_accdb_first {e : Entry} {fn : String} (st : RouteState)
    (hp : entryOutPath e = some ("accdb", fn)) (hh : st.convertHandle = none) :
    routeEntry st e
      = .ok ⟨Fs.write st.fs ["accdb", fn] e.bytes, some ["accdb", fn]⟩ := by
  simp [routeEntry, hp, hh]

theorem routeEntry_accdb_second {e : Entry} {fn : String} {p : FPath}
    (st : RouteState) (hp : entryOutPath e = some ("accdb", fn))
    (hh : st.convertHandle = some p) :
    routeEntry st e
      = .error (.multipleMdb, ⟨Fs.write st.fs ["accdb", fn] e.bytes, some p⟩) := by
  simp [routeEntry, hp, hh]

theorem routeEntries_append (xs ys : List Entry) :
    ∀ st, routeEntries st (xs ++ ys)
      = (routeEntries st xs).bind (fun st' => routeEntries st' ys) := by
  induction xs with
  | nil => intro st; rfl
  | cons e xs ih =>
    intro st
    show (match routeEntry st e with
        | .error err => .error err
        | .ok st' => routeEntries st' (xs ++ ys))
      = ((match routeEntry st e with
          | .error err => .error err
          | .ok st' => routeEntries st' xs : Except _ _).bind
            fun st' => routeEntries st' ys)
    cases routeEntry st e with
    | error err => rfl
    | ok st' => exact ih st'

/-- Routing a run of non-database entries succeeds, performs exactly
the entries' writes, and leaves the conversion handle untouched. -/
theorem routeEntries_plain (es : List Entry) :
    ∀ (fs : Fs) (h : Option FPath), (∀ e ∈ es, isAccdb e = false) →
      routeEntries ⟨fs, h⟩ es = .ok ⟨applyWrites fs (writesOf es), h⟩ := by
  induction es with
  | nil => intro fs h _; rfl
  | cons e es ih =>
    intro fs h hall
    have he : isAccdb e = false := hall e (by simp)
    have hrest : ∀ x ∈ es, isAccdb x = false := fun x hx => hall x (by simp [hx])
    cases hp : entryOutPath e with
    | none =>
      rw [routeEntries, routeEntry_skip _ hp]
      have : writesOf (e :: es) = writesOf es := by
        simp [writesOf, List.filterMap_cons, entryWrite, hp]
      rw [this] at *
      exact ih fs h hrest
    | some q =>
      obtain ⟨ext, fn⟩ := q
      have hext := ext_ne_accdb_of_not_isAccdb he hp
      rw [routeEntries, routeEntry_plain _ hp hext]
      have hw : writesOf (e :: es) = ([ext, fn], e.bytes) :: writesOf es := by
        simp [writesOf, List.filterMap_cons, entryWrite, hp]
      rw [hw]
      exact ih (Fs.write fs [ext, fn] e.bytes) h hrest

theorem Fs.lookup_write_self (fs : Fs) (p : FPath) (v : String) :
    Fs.lookup (Fs.write fs p v) p = some v := by
  unfold Fs.lookup Fs.write
  rw [List.find?_cons_of_pos _ (by simp)]
  rfl

theorem find?_filter_ne (fs : Fs) (p q : FPath) (hne : p ≠ q) :
    (fs.filter (fun w => w.1 != p)).find? (fun w => w.1 == q)
      = fs.find? (fun w => w.1 == q) := by
  induction fs with
  | nil => rfl
  | cons w fs ih =>
    by_cases hq : w.1 = q
    · have hwp : w.1 ≠ p := by rw [hq]; exact Ne.symm hne
      rw [List.filter_cons_of_pos (by simpa using hwp),
        List.find?_cons_of_pos _ (by simpa using hq),
        List.find?_cons_of_pos _ (by simpa using hq)]
    · by_cases hp' : w.1 = p
      · rw [List.filter_cons_of_neg (by simpa using hp'),
          List.find?_cons_of_neg _ (by simpa using hq)]
        exact ih
      · rw [List.filter_cons_of_pos (by simpa using hp'),
          List.find?_cons_of_neg _ (by simpa using hq),
          List.find?_cons_of_neg _ (by simpa using hq)]
        exact ih

theorem Fs.lookup_write_ne (fs : Fs) (p q : FPath) (v : String)
    (hne : p ≠ q) : Fs.lookup (Fs.write fs p v) q = Fs.lookup fs q := by
  unfold Fs.lookup Fs.write
  rw [List.find?_cons_of_neg _ (by simpa using hne),
    find?_filter_ne fs p q hne]

theorem lookup_applyWrites (ws : List (FPath × String)) :
    ∀ (fs : Fs) (p : FPath),
      Fs.lookup (applyWrites fs ws) p =
        match lastWrite ws p with
        | some v => some v
        | none => Fs.lookup fs p := by
  induction ws with
  | nil => intro fs p; rfl
  | cons w ws ih =>
    intro fs p
    have h1 : applyWrites fs (w :: ws) = applyWrites (Fs.write fs w.1 w.2) ws := rfl
    rw [h1, ih]
    show _ = (match (match lastWrite ws p with
      | some v => some v
      | none => if w.1 = p then some w.2 else none : Option String) with
      | some v => some v
      | none => Fs.lookup fs p)
    cases lastWrite ws p with
    | some v => rfl
    | none =>
      by_cases hwp : w.1 = p
      · subst hwp
        simp only [if_pos rfl]
        exact Fs.lookup_write_self fs w.1 w.2
      · simp only [if_neg hwp]
        exact Fs.lookup_write_ne fs w.1 p w.2 hwp

/-- Non-database entries never write below the `accdb` subdirectory:
their extension component differs from `"accdb"`. -/
theorem lastWrite_plain_accdb_none (es : List Entry)
    (hall : ∀ e ∈ es, isAccdb e = false) (fn : String) :
    lastWrite (writesOf es) ["accdb", fn] = none := by
  induction es with
  | nil => rfl
  | cons e es ih =>
    have he : isAccdb e = false := hall e (by simp)
    have hrest : ∀ x ∈ es, isAccdb x = false := fun x hx => hall x (by simp [hx])
    cases hp : entryOutPath e with
    | none =>
      have hw : writesOf (e :: es) = writesOf es := by
        simp [writesOf, List.filterMap_cons, entryWrite, hp]
      rw [hw]
      exact ih hrest
    | some q =>
      obtain ⟨ext, fn'⟩ := q
      have hext := ext_ne_accdb_of_not_isAccdb he hp
      have hw : writesOf (e :: es) = ([ext, fn'], e.bytes) :: writesOf es := by
        simp [writesOf, List.filterMap_cons, entryWrite, hp]
      rw [hw]
      show (match lastWrite (writesOf es) ["accdb", fn] with
        | some v => some v
        | none =>
          if ([ext, fn'] : FPath) = ["accdb", fn] then some e.bytes
          else none) = none
      rw [ih hrest, if_neg]
      intro hcon
      injection hcon with hhead _
      exact hext hhead

/-- Once a conversion has been spawned, a further database entry makes
the decode loop fail with the multiple-MDB-files error, and the handle
still points at the originally spawned path. -/
theorem route_after_spawn (p : FPath) (es : List Entry) :
    ∀ st : RouteState, st.convertHandle = some p →
      (∃ e ∈ es, isAccdb e = true) →
      ∃ fs', routeEntries st es = .error (.multipleMdb, ⟨fs', some p⟩) := by
  induction es with
  | nil => intro st _ h; simp at h
  | cons e es ih =>
    intro st hh hacc
    cases hacc' : isAccdb e with
    | true =>
      obtain ⟨fn, hp⟩ := (isAccdb_iff_entryOutPath e).mp hacc'
      refine ⟨Fs.write st.fs ["accdb", fn] e.bytes, ?_⟩
      simp only [routeEntries, routeEntry_accdb_second st hp hh]
    | false =>
      obtain ⟨x, hx, hxacc⟩ := hacc
      have hxes : x ∈ es := by
        cases List.mem_cons.mp hx with
        | inl h =>
          subst h
          rw [hxacc] at hacc'
          exact absurd hacc' (by simp)
        | inr h => exact h
      cases hp : entryOutPath e with
      | none =>
        simp only [routeEntries, routeEntry_skip st hp]
        exact ih st hh ⟨x, hxes, hxacc⟩
      | some q =>
        obtain ⟨ext, fn⟩ := q
        have hext := ext_ne_accdb_of_not_isAccdb hacc' hp
        simp only [routeEntries, routeEntry_plain st hp hext]
        exact ih _ hh ⟨x, hxes, hxacc⟩

/-- Decode-loop behaviour on an archive with two or more database
entries: the run errors with the multiple-MDB-files failure and the
only spawned conversion is the one for the first database entry. -/
theorem route_two_accdb_aux (es : List Entry) :
    ∀ (fs0 : Fs) (e1 : Entry), es.find? isAccdb = some e1 →
      2 ≤ (es.filter isAccdb).length →
      ∃ fs', routeEntries ⟨fs0, none⟩ es
        = .error (.multipleMdb, ⟨fs', some (dbPath e1)⟩) := by
  induction es with
  | nil => intro fs0 e1 hfirst _; simp at hfirst
  | cons e es ih =>
    intro fs0 e1 hfirst hcount
    cases hacc : isAccdb e with
    | true =>
      rw [List.find?_cons_of_pos _ hacc] at hfirst
      have he1 : e = e1 := by simpa using hfirst
      subst he1
      obtain ⟨fn, hp⟩ := (isAccdb_iff_entryOutPath e).mp hacc
      have hdb : dbPath e = ["accdb", fn] := by
        unfold dbPath
        rw [fileNameOf_of_entryOutPath hp]
        rfl
      have hrest : ∃ x ∈ es, isAccdb x = true := by
        rw [List.filter_cons_of_pos hacc] at hcount
        have hlen : 0 < (es.filter isAccdb).length :=
          Nat.lt_of_lt_of_le Nat.zero_lt_one (Nat.le_of_succ_le_succ hcount)
        obtain ⟨x, hx⟩ := List.exists_mem_of_ne_nil _
          (List.ne_nil_of_length_pos hlen)
        obtain ⟨hxmem, hxacc⟩ := List.mem_filter.mp hx
        exact ⟨x, hxmem, hxacc⟩
      rw [hdb]
      simp only [routeEntries,
        routeEntry_accdb_first (⟨fs0, none⟩ : RouteState) hp rfl]
      exact route_after_spawn ["accdb", fn] es
        ⟨Fs.write fs0 ["accdb", fn] e.bytes, some ["accdb", fn]⟩ rfl hrest
    | false =>
      rw [List.find?_cons_of_neg _ (by simp [hacc])] at hfirst
      rw [List.filter_cons_of_neg (by simp [hacc])] at hcount
      cases hp : entryOutPath e with
      | none =>
        simp only [routeEntries, routeEntry_skip _ hp]
        exact ih fs0 e1 hfirst hcount
      | some q =>
        obtain ⟨ext, fn⟩ := q
        have hext := ext_ne_accdb_of_not_isAccdb hacc hp
        simp only [routeEntries, routeEntry_plain _ hp hext]
        exact ih _ e1 hfirst hcount

/-- A successful conversion submits the schema block first and then
exactly one `COPY` statement per line of `mdb-tables -1` output, in
enumeration order. -/
theorem convert_ok_submitted (tools : MdbTools) (storeOk : String → Bool)
    (outRoot : String) (mdbIn : FPath) (d : Bool) (fs : Fs) (out : ConvOut)
    (h : convert_mdb tools storeOk outRoot mdbIn d fs = .ok out) :
    out.submitted = (tools.schemaTool d).stdout
      :: (rustLines tools.tablesTool.stdout).map
          (fun t => exportSql tools.mdbExportPath (joinComponents outRoot mdbIn) t) := by
  unfold convert_mdb at h
  split at h
  · exact Except.noConfusion h
  · simp only [] at h
    split at h
    · split at h
      · exact Except.noConfusion h
      · injection h with h'
        rw [← h']
    · exact Except.noConfusion h

/-! ### Claim theorems -/

/-- C1 (counterexample): on an archive with two database entries the
run does fail with the multiple-MDB-files error, but the claim's "no
conversion is attempted for either" is false — the failure state
records `convertHandle = some ["accdb", "data1.accdb"]`, i.e. a
conversion job for the first database entry was spawned before the
second entry was even seen. -/
theorem duplicate_mdb_counterexample :
    routeEntries ⟨[], none⟩ [⟨"data1.accdb", "b1"⟩, ⟨"data2.accdb", "b2"⟩]
      = .error (.multipleMdb,
          ⟨[(["accdb", "data2.accdb"], "b2"), (["accdb", "data1.accdb"], "b1")],
           some ["accdb", "data1.accdb"]⟩) := by
  rfl

/-- C1 (amended): for every archive containing two or more entries with
the recognized database extension, the decode loop fails with the
multiple-MDB-files error and no conversion is attempted for the second
database entry; however a conversion of the first database entry has
already been spawned when the error is raised (the handle at failure
points at the first entry's staging path). -/
theorem duplicate_mdb_fails_with_first_spawned (fs0 : Fs) (es : List Entry)
    (e1 : Entry) (hfirst : es.find? isAccdb = some e1)
    (hcount : 2 ≤ (es.filter isAccdb).length) :
    ∃ fs', routeEntries ⟨fs0, none⟩ es
      = .error (.multipleMdb, ⟨fs', some (dbPath e1)⟩) :=
  route_two_accdb_aux es fs0 e1 hfirst hcount

/-- C1 (witness): the amended theorem evaluated on a concrete archive
with two database entries. -/
theorem duplicate_mdb_fails_with_first_spawned_witness :
    ([⟨"data1.accdb", "b1"⟩, ⟨"data2.accdb", "b2"⟩] : List Entry).find? isAccdb
        = some ⟨"data1.accdb", "b1"⟩
      ∧ 2 ≤ (([⟨"data1.accdb", "b1"⟩, ⟨"data2.accdb", "b2"⟩] : List Entry).filter
          isAccdb).length
      ∧ ∃ fs', routeEntries ⟨[], none⟩
            [⟨"data1.accdb", "b1"⟩, ⟨"data2.accdb", "b2"⟩]
          = .error (.multipleMdb, ⟨fs', some (dbPath ⟨"data1.accdb", "b1"⟩)⟩) :=
  ⟨by decide, by decide,
    duplicate_mdb_fails_with_first_spawned [] _ _ (by decide) (by decide)⟩

/-- C10 (counterexample): when the two database entries share a base
name (here `a/data.accdb` and `b/data.accdb`, both staged as
`accdb/data.accdb` because nested folders are flattened), the second
write truncates the first, so after the duplicate error the output
tree holds only the second entry's bytes, not both database files. -/
theorem same_basename_overwrite_counterexample :
    routeEntries ⟨[], none⟩ [⟨"a/data.accdb", "b1"⟩, ⟨"b/data.accdb", "b2"⟩]
      = .error (.multipleMdb,
          ⟨[(["accdb", "data.accdb"], "b2")], some ["accdb", "data.accdb"]⟩) := by
  rfl

/-- C10 (amended): when the second recognized database entry is
routed, its bytes are fully written to `accdb/<basename>` (overwriting
anything at that path) before the duplicate-database error is raised,
and the error removes nothing; the tree retains both database files
provided the two entries' base names differ — with equal base names
the second write has overwritten the first. -/
theorem second_db_written_before_duplicate_error (fs0 : Fs)
    (p1 p2 rest : List Entry) (e1 e2 : Entry)
    (h1 : ∀ x ∈ p1, isAccdb x = false) (h2 : ∀ x ∈ p2, isAccdb x = false)
    (ha1 : isAccdb e1 = true) (ha2 : isAccdb e2 = true) :
    ∃ st', routeEntries ⟨fs0, none⟩ (p1 ++ e1 :: (p2 ++ e2 :: rest))
        = .error (.multipleMdb, st')
      ∧ Fs.lookup st'.fs (dbPath e2) = some e2.bytes
      ∧ st'.convertHandle = some (dbPath e1)
      ∧ (entryFileName e1 ≠ entryFileName e2 →
          Fs.lookup st'.fs (dbPath e1) = some e1.bytes) := by
  obtain ⟨fn1, hp1⟩ := (isAccdb_iff_entryOutPath e1).mp ha1
  obtain ⟨fn2, hp2⟩ := (isAccdb_iff_entryOutPath e2).mp ha2
  have hfn1 := fileNameOf_of_entryOutPath hp1
  have hfn2 := fileNameOf_of_entryOutPath hp2
  have hdb1 : dbPath e1 = ["accdb", fn1] := by
    unfold dbPath; rw [hfn1]; rfl
  have hdb2 : dbPath e2 = ["accdb", fn2] := by
    unfold dbPath; rw [hfn2]; rfl
  have hef1 : entryFileName e1 = fn1 := by
    unfold entryFileName; rw [hfn1]; rfl
  have hef2 : entryFileName e2 = fn2 := by
    unfold entryFileName; rw [hfn2]; rfl
  rw [hdb1, hdb2, hef1, hef2]
  rw [routeEntries_append, routeEntries_plain p1 fs0 none h1]
  simp only [Except.bind]
  simp only [routeEntries,
    routeEntry_accdb_first (⟨applyWrites fs0 (writesOf p1), none⟩ : RouteState)
      hp1 rfl]
  rw [routeEntries_append,
    routeEntries_plain p2 _ (some ["accdb", fn1]) h2]
  simp only [Except.bind]
  simp only [routeEntries,
    routeEntry_accdb_second
      (⟨applyWrites (Fs.write (applyWrites fs0 (writesOf p1)) ["accdb", fn1]
          e1.bytes) (writesOf p2), some ["accdb", fn1]⟩ : RouteState)
      hp2 rfl]
  refine ⟨_, rfl, Fs.lookup_write_self _ _ _, rfl, ?_⟩
  intro hne
  have hpne : (["accdb", fn2] : FPath) ≠ ["accdb", fn1] := by
    intro hcon
    injection hcon with _ htail
    injection htail with hh _
    exact hne hh.symm
  rw [Fs.lookup_write_ne _ _ _ _ hpne, lookup_applyWrites,
    lastWrite_plain_accdb_none p2 h2 fn1]
  exact Fs.lookup_write_self _ _ _

/-- C10 (witness): the amended theorem evaluated on an archive whose
two database entries have distinct base names, with a plain entry in
between. -/
theorem second_db_written_before_duplicate_error_witness :
    (∀ x ∈ ([⟨"readme.txt", "r"⟩] : List Entry), isAccdb x = false)
      ∧ isAccdb ⟨"data1.accdb", "b1"⟩ = true
      ∧ isAccdb ⟨"data2.accdb", "b2"⟩ = true
      ∧ ∃ st', routeEntries ⟨[], none⟩
            ([] ++ (⟨"data1.accdb", "b1"⟩ : Entry)
              :: ([⟨"readme.txt", "r"⟩] ++ (⟨"data2.accdb", "b2"⟩ : Entry) :: []))
          = .error (.multipleMdb, st')
        ∧ Fs.lookup st'.fs (dbPath ⟨"data2.accdb", "b2"⟩) = some "b2"
        ∧ st'.convertHandle = some (dbPath ⟨"data1.accdb", "b1"⟩)
        ∧ (entryFileName ⟨"data1.accdb", "b1"⟩
              ≠ entryFileName ⟨"data2.accdb", "b2"⟩ →
            Fs.lookup st'.fs (dbPath ⟨"data1.accdb", "b1"⟩) = some "b1") :=
  ⟨by decide, by decide, by decide,
    second_db_written_before_duplicate_error [] [] [⟨"readme.txt", "r"⟩] []
      ⟨"data1.accdb", "b1"⟩ ⟨"data2.accdb", "b2"⟩
      (by decide) (by decide) (by decide) (by decide)⟩

/-- C5 (counterexample): the database entry's bytes are not staged in
any private per-archive location — the only copy lands at
`accdb/data.accdb`, the same `<extension>/<basename>` slot of the
public output tree used for the plain `txt` entry, and the conversion
handle points at exactly that public path. -/
theorem db_bytes_public_tree_counterexample :
    routeEntries ⟨[], none⟩ [⟨"readme.txt", "aux"⟩, ⟨"data.accdb", "db"⟩]
      = .ok ⟨[(["accdb", "data.accdb"], "db"), (["txt", "readme.txt"], "aux")],
             some ["accdb", "data.accdb"]⟩ := by
  rfl

/-- C5 (amended): the recognized database file's bytes are written to
the public extension-partitioned output tree at `accdb/<basename>` —
the same `entryOutPath` routing every plain entry uses — and the
conversion job is handed that public path; no private per-archive
staging location exists. -/
theorem db_routed_into_extension_tree (fs0 : Fs) (p1 p2 : List Entry)
    (e : Entry) (h1 : ∀ x ∈ p1, isAccdb x = false)
    (h2 : ∀ x ∈ p2, isAccdb x = false) (ha : isAccdb e = true) :
    ∃ st, routeEntries ⟨fs0, none⟩ (p1 ++ e :: p2) = .ok st
      ∧ entryOutPath e = some ("accdb", entryFileName e)
      ∧ st.convertHandle = some ["accdb", entryFileName e]
      ∧ Fs.lookup st.fs ["accdb", entryFileName e] = some e.bytes := by
  obtain ⟨fn, hp⟩ := (isAccdb_iff_entryOutPath e).mp ha
  have hfn := fileNameOf_of_entryOutPath hp
  have hef : entryFileName e = fn := by
    unfold entryFileName; rw [hfn]; rfl
  rw [hef]
  rw [routeEntries_append, routeEntries_plain p1 fs0 none h1]
  simp only [Except.bind]
  simp only [routeEntries,
    routeEntry_accdb_first (⟨applyWrites fs0 (writesOf p1), none⟩ : RouteState)
      hp rfl]
  rw [routeEntries_plain p2 _ (some ["accdb", fn]) h2]
  refine ⟨_, rfl, hp, rfl, ?_⟩
  rw [lookup_applyWrites, lastWrite_plain_accdb_none p2 h2 fn]
  exact Fs.lookup_write_self _ _ _

/-- C5 (witness): the amended theorem evaluated on a concrete archive
with one plain entry on each side of the database entry. -/
theorem db_routed_into_extension_tree_witness :
    (∀ x ∈ ([⟨"readme.txt", "aux"⟩] : List Entry), isAccdb x = false)
      ∧ isAccdb ⟨"data.accdb", "db"⟩ = true
      ∧ ∃ st, routeEntries ⟨[], none⟩
            ([⟨"readme.txt", "aux"⟩] ++ (⟨"data.accdb", "db"⟩ : Entry)
              :: [⟨"notes.csv", "n"⟩])
          = .ok st
        ∧ entryOutPath ⟨"data.accdb", "db"⟩
            = some ("accdb", entryFileName ⟨"data.accdb", "db"⟩)
        ∧ st.convertHandle = some ["accdb", entryFileName ⟨"data.accdb", "db"⟩]
        ∧ Fs.lookup st.fs ["accdb", entryFileName ⟨"data.accdb", "db"⟩]
            = some "db" :=
  ⟨by decide, by decide,
    db_routed_into_extension_tree [] [⟨"readme.txt", "aux"⟩] [⟨"notes.csv", "n"⟩]
      ⟨"data.accdb", "db"⟩ (by decide) (by decide) (by decide)⟩

/-- C6 (counterexample): a first run creates the output root, so a
second program invocation against the same root finds it existing,
takes the other branch of `main`, and stops in `unimplemented!` before
checking tools, fetching, or routing anything — the second run does
not complete, contradicting the claim's "completes". -/
theorem second_invocation_unimplemented_counterexample :
    mainRun true (fun _ => true) ["a.zip"] (fun _ => true)
      = ([], .outDirExists) := by
  rfl

/-- C6 (amended): within a run, routing a plain-entry archive always
succeeds, and because every write is a truncate-and-rewrite of its
full path, re-routing the same archive against the output tree left
by the first pass yields identical file contents at every path; a
second top-level program invocation against the same output root,
however, stops in the unimplemented output-root-exists branch of
`main` instead of reaching the pipeline. -/
theorem plain_rerun_idempotent (fs0 : Fs) (es : List Entry)
    (hplain : ∀ e ∈ es, isAccdb e = false) :
    ∃ st1 st2, routeEntries ⟨fs0, none⟩ es = .ok st1
      ∧ routeEntries ⟨st1.fs, none⟩ es = .ok st2
      ∧ ∀ p, Fs.lookup st2.fs p = Fs.lookup st1.fs p := by
  refine ⟨⟨applyWrites fs0 (writesOf es), none⟩,
    ⟨applyWrites (applyWrites fs0 (writesOf es)) (writesOf es), none⟩,
    routeEntries_plain es fs0 none hplain,
    routeEntries_plain es _ none hplain, ?_⟩
  intro p
  rw [lookup_applyWrites, lookup_applyWrites]
  cases hlw : lastWrite (writesOf es) p with
  | some v => rfl
  | none => rfl

/-- C6 (witness): idempotence evaluated on a concrete plain archive,
including two entries that collide on the same output path. -/
theorem plain_rerun_idempotent_witness :
    (∀ e ∈ ([⟨"readme.txt", "one"⟩, ⟨"dir/readme.txt", "two"⟩,
        ⟨"notes.csv", "n"⟩] : List Entry), isAccdb e = false)
      ∧ ∃ st1 st2, routeEntries ⟨[], none⟩
            [⟨"readme.txt", "one"⟩, ⟨"dir/readme.txt", "two"⟩, ⟨"notes.csv", "n"⟩]
          = .ok st1
        ∧ routeEntries ⟨st1.fs, none⟩
            [⟨"readme.txt", "one"⟩, ⟨"dir/readme.txt", "two"⟩, ⟨"notes.csv", "n"⟩]
          = .ok st2
        ∧ ∀ p, Fs.lookup st2.fs p = Fs.lookup st1.fs p :=
  ⟨by decide, plain_rerun_idempotent [] _ (by decide)⟩

/-- C2 (counterexample): with one table whose `COPY` the store
rejects, the conversion submits the schema block and the `COPY` as two
separate units; the schema is committed while the `COPY` is not, and
the run errors — neither "all of it commits" nor "none of it does",
refuting the single-atomic-unit claim. -/
theorem schema_commit_partial_counterexample :
    convert_mdb
        (⟨fun _ => ⟨0, "CREATE TABLE t (x int);"⟩, ⟨0, "t\n"⟩,
          "mdb-export"⟩ : MdbTools)
        (fun s => s == "CREATE TABLE t (x int);") "out"
        ["accdb", "data.accdb"] false []
      = .error (.storeError
            "COPY t FROM PROGRAM 'mdb-export -H out/accdb/data.accdb t' (FORMAT csv);",
          ⟨[(["schema", "data.sql"], "CREATE TABLE t (x int);")],
           ["CREATE TABLE t (x int);",
            "COPY t FROM PROGRAM 'mdb-export -H out/accdb/data.accdb t' (FORMAT csv);"]⟩)
      ∧ committed (fun s => s == "CREATE TABLE t (x int);")
          ⟨[(["schema", "data.sql"], "CREATE TABLE t (x int);")],
           ["CREATE TABLE t (x int);",
            "COPY t FROM PROGRAM 'mdb-export -H out/accdb/data.accdb t' (FORMAT csv);"]⟩
        = ["CREATE TABLE t (x int);"] :=
  ⟨rfl, rfl⟩

/-- C2 (amended): the schema block and each per-table load are
executed as separate, independently committed `batch_execute` calls on
separately acquired pooled connections; when a per-table export fails,
the archive-level result is an error, but the already committed schema
block stays applied — there is no wrapping store-side transaction. -/
theorem failed_copy_surfaces_error_schema_committed (tools : MdbTools)
    (storeOk : String → Bool) (outRoot : String) (mdbIn : FPath) (d : Bool)
    (fs : Fs) (fn : String) (hfn : mdbIn.getLast? = some fn)
    (hschema : storeOk (tools.schemaTool d).stdout = true)
    (hfail : ∃ sql ∈ (rustLines tools.tablesTool.stdout).map
        (fun t => exportSql tools.mdbExportPath (joinComponents outRoot mdbIn) t),
        storeOk sql = false) :
    ∃ sql out,
      convert_mdb tools storeOk outRoot mdbIn d fs
        = .error (.storeError sql, out)
      ∧ storeOk sql = false
      ∧ (tools.schemaTool d).stdout ∈ committed storeOk out
      ∧ out.submitted = (tools.schemaTool d).stdout
          :: (rustLines tools.tablesTool.stdout).map
              (fun t => exportSql tools.mdbExportPath (joinComponents outRoot mdbIn) t) := by
  have hfind : (((rustLines tools.tablesTool.stdout).map
      (fun t => exportSql tools.mdbExportPath (joinComponents outRoot mdbIn) t)).find?
        (fun sql => !storeOk sql)).isSome := by
    rw [List.find?_isSome]
    obtain ⟨sql, hmem, hbad⟩ := hfail
    exact ⟨sql, hmem, by rw [hbad]; rfl⟩
  cases hf : ((rustLines tools.tablesTool.stdout).map
      (fun t => exportSql tools.mdbExportPath (joinComponents outRoot mdbIn) t)).find?
        (fun sql => !storeOk sql) with
  | none => rw [hf] at hfind; exact absurd hfind (by simp)
  | some sql =>
    have hbad : storeOk sql = false := by
      have h1 := List.find?_some hf
      simpa using h1
    have hrun : convert_mdb tools storeOk outRoot mdbIn d fs
        = .error (.storeError sql,
            ⟨Fs.write fs ["schema", stemOf (stemOf fn) ++ ".sql"]
              (tools.schemaTool d).stdout,
             (tools.schemaTool d).stdout
               :: (rustLines tools.tablesTool.stdout).map
                 (fun t =>
                   exportSql tools.mdbExportPath (joinComponents outRoot mdbIn) t)⟩) := by
      unfold convert_mdb
      rw [hfn]
      simp [hschema, hf]
    refine ⟨sql, _, hrun, hbad, ?_, rfl⟩
    exact List.mem_filter.mpr ⟨List.mem_cons_self _ _, hschema⟩

/-- C2 (witness): the amended theorem evaluated on a concrete
conversion whose only `COPY` fails. -/
theorem failed_copy_surfaces_error_schema_committed_witness :
    ∃ sql out,
      convert_mdb
          (⟨fun _ => ⟨0, "CREATE TABLE t (x int);"⟩, ⟨0, "t\n"⟩,
            "mdb-export"⟩ : MdbTools)
          (fun s => s == "CREATE TABLE t (x int);") "out"
          ["accdb", "data.accdb"] false []
        = .error (.storeError sql, out)
      ∧ (fun s => s == "CREATE TABLE t (x int);") sql = false
      ∧ ((⟨fun _ => ⟨0, "CREATE TABLE t (x int);"⟩, ⟨0, "t\n"⟩,
            "mdb-export"⟩ : MdbTools).schemaTool false).stdout
          ∈ committed (fun s => s == "CREATE TABLE t (x int);") out
      ∧ out.submitted
          = ((⟨fun _ => ⟨0, "CREATE TABLE t (x int);"⟩, ⟨0, "t\n"⟩,
              "mdb-export"⟩ : MdbTools).schemaTool false).stdout
            :: (rustLines (⟨fun _ => ⟨0, "CREATE TABLE t (x int);"⟩,
                ⟨0, "t\n"⟩, "mdb-export"⟩ : MdbTools).tablesTool.stdout).map
              (fun t => exportSql
                (⟨fun _ => ⟨0, "CREATE TABLE t (x int);"⟩, ⟨0, "t\n"⟩,
                  "mdb-export"⟩ : MdbTools).mdbExportPath
                (joinComponents "out" ["accdb", "data.accdb"]) t) :=
  failed_copy_surfaces_error_schema_committed
    (⟨fun _ => ⟨0, "CREATE TABLE t (x int);"⟩, ⟨0, "t\n"⟩,
      "mdb-export"⟩ : MdbTools)
    (fun s => s == "CREATE TABLE t (x int);") "out" ["accdb", "data.accdb"]
    false [] "data.accdb" rfl rfl
    ⟨"COPY t FROM PROGRAM 'mdb-export -H out/accdb/data.accdb t' (FORMAT csv);",
      List.Mem.head _, rfl⟩

/-- C3 (confirmed): in every successful conversion the schema
statement block is the first store submission and every per-table load
statement of that conversion comes after it. -/
theorem schema_submitted_before_loads (tools : MdbTools)
    (storeOk : String → Bool) (outRoot : String) (mdbIn : FPath) (d : Bool)
    (fs : Fs) (out : ConvOut)
    (h : convert_mdb tools storeOk outRoot mdbIn d fs = .ok out) :
    out.submitted = (tools.schemaTool d).stdout
      :: (rustLines tools.tablesTool.stdout).map
          (fun t => exportSql tools.mdbExportPath (joinComponents outRoot mdbIn) t) :=
  convert_ok_submitted tools storeOk outRoot mdbIn d fs out h

/-- C3 (witness): the ordering theorem evaluated on a concrete
successful conversion with one table. -/
theorem schema_submitted_before_loads_witness :
    ∃ out, convert_mdb
        (⟨fun _ => ⟨0, "CREATE TABLE t (x int);"⟩, ⟨0, "t\n"⟩,
          "mdb-export"⟩ : MdbTools)
        (fun _ => true) "out" ["accdb", "data.accdb"] false [] = .ok out
      ∧ out.submitted
        = ["CREATE TABLE t (x int);",
           "COPY t FROM PROGRAM 'mdb-export -H out/accdb/data.accdb t' (FORMAT csv);"] := by
  refine ⟨⟨[(["schema", "data.sql"], "CREATE TABLE t (x int);")],
    ["CREATE TABLE t (x int);",
     "COPY t FROM PROGRAM 'mdb-export -H out/accdb/data.accdb t' (FORMAT csv);"]⟩,
    rfl, ?_⟩
  exact schema_submitted_before_loads
    (⟨fun _ => ⟨0, "CREATE TABLE t (x int);"⟩, ⟨0, "t\n"⟩,
      "mdb-export"⟩ : MdbTools)
    (fun _ => true) "out" ["accdb", "data.accdb"] false [] _ rfl

/-- C4 (code evaluation): both external tools exit with code 1, yet
the conversion succeeds and submits the failing tools' stdout to the
store.  `Command::output()` is awaited with `?`, which only fails when
spawning fails; the returned `ExitStatus` is never inspected (the
enabled `exit_status_error` feature is never used), so a non-zero exit
is not fatal for the archive, contrary to the claim. -/
theorem nonzero_exit_output_still_used :
    convert_mdb
        (⟨fun _ => ⟨1, "CREATE TABLE broken (x int);"⟩, ⟨1, "broken\n"⟩,
          "mdb-export"⟩ : MdbTools)
        (fun _ => true) "out" ["accdb", "data.accdb"] false []
      = .ok ⟨[(["schema", "data.sql"], "CREATE TABLE broken (x int);")],
             ["CREATE TABLE broken (x int);",
              "COPY broken FROM PROGRAM 'mdb-export -H out/accdb/data.accdb broken' (FORMAT csv);"]⟩ := by
  rfl

/-- C7 (counterexample): `str::lines` does not ignore interior blank
lines: with table-enumeration output `"students\n\ncourses\n"` the
conversion creates three export tasks — one of them a `COPY` with an
empty table name — although only two lines are non-blank. -/
theorem blank_line_task_counterexample :
    rustLines "students\n\ncourses\n" = ["students", "", "courses"]
      ∧ ((rustLines "students\n\ncourses\n").filter (fun l => l != "")).length = 2
      ∧ convert_mdb
          (⟨fun _ => ⟨0, "CREATE TABLE students (x int);"⟩,
            ⟨0, "students\n\ncourses\n"⟩, "mdb-export"⟩ : MdbTools)
          (fun _ => true) "out" ["accdb", "data.accdb"] false []
        = .ok ⟨[(["schema", "data.sql"], "CREATE TABLE students (x int);")],
            ["CREATE TABLE students (x int);",
             "COPY students FROM PROGRAM 'mdb-export -H out/accdb/data.accdb students' (FORMAT csv);",
             "COPY  FROM PROGRAM 'mdb-export -H out/accdb/data.accdb ' (FORMAT csv);",
             "COPY courses FROM PROGRAM 'mdb-export -H out/accdb/data.accdb courses' (FORMAT csv);"]⟩ :=
  ⟨rfl, rfl, rfl⟩

/-- C7 (amended): the table-enumeration output is parsed one table
name per line (a final trailing line terminator yields no extra line),
and blank lines are not ignored: every parsed line, blank or not,
yields exactly one export task, so the number of per-table export
tasks equals the number of parsed lines. -/
theorem one_export_task_per_line (tools : MdbTools) (storeOk : String → Bool)
    (outRoot : String) (mdbIn : FPath) (d : Bool) (fs : Fs) (out : ConvOut)
    (h : convert_mdb tools storeOk outRoot mdbIn d fs = .ok out) :
    out.submitted.tail = (rustLines tools.tablesTool.stdout).map
        (fun t => exportSql tools.mdbExportPath (joinComponents outRoot mdbIn) t)
      ∧ out.submitted.tail.length = (rustLines tools.tablesTool.stdout).length := by
  have hs := convert_ok_submitted tools storeOk outRoot mdbIn d fs out h
  rw [hs]
  exact ⟨rfl, by rw [List.tail_cons, List.length_map]⟩

/-- C7 (witness): the per-line theorem evaluated on a concrete
conversion whose enumeration output contains an interior blank line:
three lines, three export tasks. -/
theorem one_export_task_per_line_witness :
    ∃ out, convert_mdb
        (⟨fun _ => ⟨0, "CREATE TABLE students (x int);"⟩,
          ⟨0, "students\n\ncourses\n"⟩, "mdb-export"⟩ : MdbTools)
        (fun _ => true) "out" ["accdb", "data.accdb"] false [] = .ok out
      ∧ out.submitted.tail.length = 3 := by
  refine ⟨⟨[(["schema", "data.sql"], "CREATE TABLE students (x int);")],
      ["CREATE TABLE students (x int);",
       "COPY students FROM PROGRAM 'mdb-export -H out/accdb/data.accdb students' (FORMAT csv);",
       "COPY  FROM PROGRAM 'mdb-export -H out/accdb/data.accdb ' (FORMAT csv);",
       "COPY courses FROM PROGRAM 'mdb-export -H out/accdb/data.accdb courses' (FORMAT csv);"]⟩,
    rfl, ?_⟩
  exact (one_export_task_per_line
    (⟨fun _ => ⟨0, "CREATE TABLE students (x int);"⟩,
      ⟨0, "students\n\ncourses\n"⟩, "mdb-export"⟩ : MdbTools)
    (fun _ => true) "out" ["accdb", "data.accdb"] false [] _ rfl).2.trans rfl

/-- C8 (confirmed, fresh output root): the tool-resolvability check is
the first event of the run and the only non-network event, it happens
exactly once, and when a required tool is unresolvable the run ends
with the tool-not-found error having performed no network activity. -/
theorem tools_checked_once_before_any_fetch (resolvable : String → Bool)
    (links : List String) (archiveOk : String → Bool) :
    ((mainRun false resolvable links archiveOk).1.count .toolsCheck = 1
      ∧ ∃ rest, (mainRun false resolvable links archiveOk).1
            = .toolsCheck :: rest
          ∧ ∀ ev ∈ rest, isNetworkEvent ev = true)
    ∧ ((∃ t ∈ REQUIRED_TOOLS, resolvable t = false) →
        (mainRun false resolvable links archiveOk).1 = [.toolsCheck]
        ∧ ∃ t, (mainRun false resolvable links archiveOk).2 = .toolNotFound t
            ∧ resolvable t = false) := by
  cases hc : check_tools resolvable REQUIRED_TOOLS with
  | error t =>
    have hbad : resolvable t = false := by
      unfold check_tools at hc
      cases hfind : REQUIRED_TOOLS.find? (fun x => !resolvable x) with
      | none => rw [hfind] at hc; exact Except.noConfusion hc
      | some x =>
        rw [hfind] at hc
        injection hc with h'
        subst h'
        simpa using List.find?_some hfind
    have hrun : mainRun false resolvable links archiveOk
        = ([.toolsCheck], .toolNotFound t) := by
      simp [mainRun, hc]
    refine ⟨⟨?_, [], ?_, ?_⟩, fun _ => ⟨?_, t, ?_, hbad⟩⟩
    · rw [hrun]; rfl
    · rw [hrun]
    · intro ev hev; simp at hev
    · rw [hrun]
    · rw [hrun]
  | ok u =>
    have hrun : mainRun false resolvable links archiveOk
        = (MainEvent.toolsCheck :: MainEvent.fetchCatalog
            :: links.map .runArchive,
           if links.all archiveOk then .ok else .archiveError) := by
      simp [mainRun, hc]
    have hcount0 :
        (links.map MainEvent.runArchive).count MainEvent.toolsCheck = 0 := by
      rw [List.count_eq_zero]
      intro hmem
      obtain ⟨x, _, hx⟩ := List.mem_map.mp hmem
      exact MainEvent.noConfusion hx
    constructor
    · refine ⟨?_, MainEvent.fetchCatalog :: links.map .runArchive,
        by rw [hrun], ?_⟩
      · rw [hrun]
        show List.count _ (MainEvent.toolsCheck :: MainEvent.fetchCatalog
          :: links.map .runArchive) = 1
        rw [List.count_cons_self, List.count_cons_of_ne (by intro h; exact MainEvent.noConfusion h),
          hcount0]
      · intro ev hev
        cases List.mem_cons.mp hev with
        | inl h => subst h; rfl
        | inr hmem =>
          obtain ⟨x, _, hx⟩ := List.mem_map.mp hmem
          subst hx; rfl
    · intro ⟨t, hmem, hbad⟩
      exfalso
      unfold check_tools at hc
      cases hfind : REQUIRED_TOOLS.find? (fun x => !resolvable x) with
      | some x => rw [hfind] at hc; exact Except.noConfusion hc
      | none =>
        have hnone := List.find?_eq_none.mp hfind t hmem
        rw [hbad] at hnone
        simp at hnone

/-- C8 (witness): the startup theorem evaluated with a resolver
missing `mdb-schema`: the trace is exactly one tools check and the
outcome is that tool's not-found failure. -/
theorem tools_checked_once_before_any_fetch_witness :
    (mainRun false (fun t => t != "mdb-schema") ["a.zip"] (fun _ => true)).1
        = [.toolsCheck]
      ∧ ∃ t, (mainRun false (fun t => t != "mdb-schema") ["a.zip"]
            (fun _ => true)).2 = .toolNotFound t
          ∧ (fun t => t != "mdb-schema") t = false :=
  (tools_checked_once_before_any_fetch (fun t => t != "mdb-schema")
      ["a.zip"] (fun _ => true)).2
    ⟨"mdb-schema", by decide, by decide⟩

/-- C9 (confirmed): in the scheduler model of
`stream::iter(lazily spawning iterator).buffer_unordered(P)`, every
state reachable from the initial state has at most `P` archives in
flight. -/
theorem scheduler_bounded_inflight {α : Type} [DecidableEq α] (P : Nat)
    (tasks : List α) (s : SchedState α)
    (h : SchedReach P ⟨tasks, [], []⟩ s) :
    s.running.length ≤ P := by
  induction h with
  | refl => exact Nat.zero_le P
  | step hr hs ih =>
    cases hs with
    | pull t rest s hcap hp => exact hcap
    | finish t src ht =>
      exact Nat.le_trans
        (List.Sublist.length_le (List.erase_sublist _ _)) ih

/-- C9 (witness): the bound evaluated at `P = 1` on a concrete
two-task run after one `pull` step: one task is in flight and the
bound holds. -/
theorem scheduler_bounded_inflight_witness :
    SchedReach 1 (⟨["a.zip", "b.zip"], [], []⟩ : SchedState String)
        ⟨["b.zip"], ["a.zip"], []⟩
      ∧ (⟨["b.zip"], ["a.zip"], []⟩ : SchedState String).running.length ≤ 1 := by
  have hreach : SchedReach 1 (⟨["a.zip", "b.zip"], [], []⟩ : SchedState String)
      ⟨["b.zip"], ["a.zip"], []⟩ :=
    SchedReach.step SchedReach.refl
      (SchedStep.pull "a.zip" ["b.zip"] ⟨["a.zip", "b.zip"], [], []⟩
        (by decide) rfl)
  exact ⟨hreach, scheduler_bounded_inflight 1 ["a.zip", "b.zip"] _ hreach⟩

